import Mathlib

/-
  Verification of the timing-and-scoring engine of the rhythm game in
  src/main.py, as a shallow embedding in Lean 4.

  Modelling conventions:
  - Note positions, pixel distances and times are Python ints in the
    source (y starts at -20 and moves in steps of 4; hit_zone_y = 500;
    heights 20/40), so they are embedded as ℤ.
  - Python floats appear only in the scoring formula of
    ScoreManager.add_hit (constants 0.1, 1.5, 2.0) and as possible
    arguments of Note.calculate_accuracy. Double values are carried as
    their exact rational values, and every float operation the source
    performs (parsing the literal 0.1, int-to-float conversion,
    multiplication, addition) applies fl, rounding to the nearest
    binary64 value with ties to even, so the model computes bit-exactly
    what CPython computes at the magnitudes this game reaches (no
    overflow, no subnormals). Python int(x), truncation toward zero,
    is modelled by pyInt.
  - calculate_accuracy is embedded twice over the two numeric domains it
    is used at: calculateAccuracy over ℚ (the function on arbitrary
    numeric distances) and calculateAccuracyZ at the integer pixel
    distances the engine passes to it; calculateAccuracy_intCast proves
    the two agree on ℤ, so the engine definitions below may use the
    integer form.
  - The pygame clock and the random note generator are injected as
    explicit parameters (current time, pre-drawn fresh note); the engine
    itself is deterministic in them.
  - Purely cosmetic state (colours, the SpecialNote glow counter, the
    feedback text/timer) and the audio calls are omitted: the scoring
    logic never reads them.
-/

namespace RhythmModel

/-- The HitAccuracy enum of src/main.py. -/
inductive HitAccuracy where
  | PERFECT
  | GOOD
  | MISS
deriving DecidableEq, Repr

/-- The NoteType enum of src/main.py. -/
inductive NoteType where
  | NORMAL
  | HOLD
  | SPECIAL
deriving DecidableEq, Repr

/-- A live note: the Note base class with the subclass state flattened
into one record. `beingHeld` and `holdTimer` belong to HoldNote;
`hitRegistered` models the `_hit_registered` attribute that the hold
branch of `RhythmGame.check_hit` adds dynamically (absent = `false`). -/
structure Note where
  lane : Nat
  y : ℤ
  kind : NoteType
  hit : Bool
  beingHeld : Bool
  holdTimer : Nat
  hitRegistered : Bool
deriving DecidableEq, Repr

/-- Note height: HoldNote overrides `_height` to 40, all others keep 20. -/
def Note.height (n : Note) : ℤ :=
  match n.kind with
  | NoteType.HOLD => 40
  | _ => 20

/-- Kind-dependent `_score_value`: Normal 100, Hold 200, Special 500. -/
def Note.scoreValue (n : Note) : ℤ :=
  match n.kind with
  | NoteType.NORMAL => 100
  | NoteType.HOLD => 200
  | NoteType.SPECIAL => 500

/-- Embedding of `Note.update`: the note descends by the fixed speed 4. -/
def Note.update (n : Note) : Note :=
  { n with y := n.y + 4 }

/-- Embedding of `Note.is_off_screen`: `self.y > SCREEN_HEIGHT` with SCREEN_HEIGHT = 600. -/
def Note.isOffScreen (n : Note) : Bool :=
  decide (600 < n.y)

/-- Embedding of `Note.get_hit_zone_distance`: `abs(self.y + self._height//2 - hit_zone_y)`
(both heights are even, so the floor division by 2 is exact). -/
def Note.hitZoneDistance (n : Note) (hitZoneY : ℤ) : ℤ :=
  |n.y + n.height / 2 - hitZoneY|

/-- Embedding of `Note.calculate_accuracy` on an arbitrary numeric distance:
thresholds 15 (Perfect) and 30 (Good), Miss beyond. The method
ignores `self`. -/
def calculateAccuracy (distance : ℚ) : HitAccuracy :=
  if distance ≤ 15 then HitAccuracy.PERFECT
  else if distance ≤ 30 then HitAccuracy.GOOD
  else HitAccuracy.MISS

/-- Embedding of `Note.calculate_accuracy` at the integer pixel distances the engine
passes to it; agrees with `calculateAccuracy` by
`calculateAccuracy_intCast`. -/
def calculateAccuracyZ (distance : ℤ) : HitAccuracy :=
  if distance ≤ 15 then HitAccuracy.PERFECT
  else if distance ≤ 30 then HitAccuracy.GOOD
  else HitAccuracy.MISS

theorem calculateAccuracy_intCast (d : ℤ) :
    calculateAccuracy (d : ℚ) = calculateAccuracyZ d := by
  unfold calculateAccuracy calculateAccuracyZ
  have h15 : ((d : ℚ) ≤ 15) ↔ (d ≤ 15) := by exact_mod_cast Iff.rfl
  have h30 : ((d : ℚ) ≤ 30) ↔ (d ≤ 30) := by exact_mod_cast Iff.rfl
  simp only [h15, h30]

/-- Embedding of `NoteFactory.create_note` at the default spawn height y = -20
(the lane-to-x pixel mapping is cosmetic and omitted). -/
def NoteFactory.createNote (kind : NoteType) (lane : Nat) : Note :=
  { lane := lane, y := -20, kind := kind, hit := false, beingHeld := false, holdTimer := 0, hitRegistered := false }

/-- Python `int(x)`: truncation toward zero, over exact rationals. -/
def pyInt (q : ℚ) : ℤ :=
  if 0 ≤ q then ⌊q⌋ else -⌊-q⌋

/-- Round a rational to the nearest integer, ties to even. -/
def rne (x : ℚ) : ℤ :=
  if x - ⌊x⌋ < 1 / 2 then ⌊x⌋
  else if 1 / 2 < x - ⌊x⌋ then ⌊x⌋ + 1
  else ⌊x⌋ + ⌊x⌋ % 2

/-- Round a rational to the nearest IEEE-754 binary64 value (53-bit
significand, round to nearest, ties to even), with unbounded exponent
range: overflow and underflow do not occur at the magnitudes this
program computes, so on them the model agrees with Python doubles. -/
def fl (q : ℚ) : ℚ :=
  if q = 0 then 0
  else rne (q / 2 ^ (Int.log 2 |q| - 52)) * 2 ^ (Int.log 2 |q| - 52)

/-- Python float multiplication: the correctly rounded exact product. -/
def floatMul (a b : ℚ) : ℚ := fl (a * b)

/-- Python float addition: the correctly rounded exact sum. -/
def floatAdd (a b : ℚ) : ℚ := fl (a + b)

/-- The ScoreManager ledger: cumulative score, combo, max combo, and the
`__hits` dictionary split into its three counters. -/
structure ScoreManager where
  score : ℤ
  combo : ℤ
  maxCombo : ℤ
  perfectHits : ℤ
  goodHits : ℤ
  missHits : ℤ
deriving DecidableEq, Repr

/-- The freshly constructed ScoreManager: all fields zero. -/
def ScoreManager.init : ScoreManager :=
  { score := 0, combo := 0, maxCombo := 0, perfectHits := 0, goodHits := 0, missHits := 0 }

/-- The first line of `add_hit`: `self.__hits[accuracy] += 1`. -/
def ScoreManager.bumpHits (sm : ScoreManager) (accuracy : HitAccuracy) : ScoreManager :=
  match accuracy with
  | HitAccuracy.PERFECT => { sm with perfectHits := sm.perfectHits + 1 }
  | HitAccuracy.GOOD => { sm with goodHits := sm.goodHits + 1 }
  | HitAccuracy.MISS => { sm with missHits := sm.missHits + 1 }

/-- Embedding of `ScoreManager.add_hit`: bump the accuracy counter; on a
non-Miss, increment combo, update max combo, and add
`int(base_score * multiplier * (1 + min(combo * 0.1, 2.0)))` to the
score, with multiplier 1.5 for Perfect and 1.0 for Good, every float
conversion and operation correctly rounded to binary64 (the literal
0.1 is itself the rounded value fl (1/10); 1.5, 2.0 and 1 are exact;
Python min compares doubles exactly); on a Miss, reset combo to 0. -/
def ScoreManager.addHit (sm : ScoreManager) (accuracy : HitAccuracy) (baseScore : ℤ) : ScoreManager :=
  let sm1 := sm.bumpHits accuracy
  if accuracy ≠ HitAccuracy.MISS then
    let combo1 := sm1.combo + 1
    let maxCombo1 := max sm1.maxCombo combo1
    let multiplier : ℚ := if accuracy = HitAccuracy.PERFECT then 3 / 2 else 1
    let comboBonus : ℚ := min (floatMul (fl (combo1 : ℚ)) (fl (1 / 10))) 2
    let finalScore := pyInt (floatMul (floatMul (fl (baseScore : ℚ)) multiplier) (floatAdd 1 comboBonus))
    { sm1 with combo := combo1, maxCombo := maxCombo1, score := sm1.score + finalScore }
  else
    { sm1 with combo := 0 }

/-- Embedding of `ScoreManager.get_accuracy_percentage`: 0 with no recorded hits,
otherwise (Perfect + Good) / total * 100 with Misses in the total.
The source method only reads the ledger, so it embeds as a pure
function of the ScoreManager. -/
def ScoreManager.getAccuracyPercentage (sm : ScoreManager) : ℚ :=
  let totalHits := sm.perfectHits + sm.goodHits + sm.missHits
  if totalHits = 0 then 0
  else ((sm.perfectHits + sm.goodHits : ℤ) : ℚ) / ((totalHits : ℤ) : ℚ) * 100

/-- The per-lane scan of `RhythmGame.check_hit`, over the live note list
and the ledger. Mirrors the Python loop: skip notes in other lanes or
already hit; for a HoldNote under a held lane within distance 30, set
`being_held` (whose setter also bumps the hold timer) and, when
`_hit_registered` is absent, record the classified hit and set it; for a
Normal or Special note under a fresh press within distance 40, record
the classified hit, mark the note hit and stop scanning (the `break`). -/
def checkHitAux (hitZoneY : ℤ) (lane : Nat) (isHold : Bool) :
    List Note → ScoreManager → List Note × ScoreManager
  | [], sm => ([], sm)
  | n :: rest, sm =>
    if n.lane = lane ∧ n.hit = false then
      let distance := n.hitZoneDistance hitZoneY
      if n.kind = NoteType.HOLD then
        if isHold = true ∧ distance ≤ 30 then
          if n.hitRegistered = false then
            let sm2 := sm.addHit (calculateAccuracyZ distance) n.scoreValue
            let r := checkHitAux hitZoneY lane isHold rest sm2
            ({ n with beingHeld := true, holdTimer := n.holdTimer + 1, hitRegistered := true } :: r.1, r.2)
          else
            let r := checkHitAux hitZoneY lane isHold rest sm
            ({ n with beingHeld := true, holdTimer := n.holdTimer + 1 } :: r.1, r.2)
        else
          let r := checkHitAux hitZoneY lane isHold rest sm
          (n :: r.1, r.2)
      else
        if isHold = false ∧ distance ≤ 40 then
          ({ n with hit := true } :: rest, sm.addHit (calculateAccuracyZ distance) n.scoreValue)
        else
          let r := checkHitAux hitZoneY lane isHold rest sm
          (n :: r.1, r.2)
    else
      let r := checkHitAux hitZoneY lane isHold rest sm
      (n :: r.1, r.2)

/-- The engine state of the RhythmGame class: live notes, the ledger,
and the spawn-gate parameters (the constructor sets hit_zone_y = 500
and note_interval = 800). -/
structure RhythmGame where
  notes : List Note
  scoreManager : ScoreManager
  hitZoneY : ℤ
  lastNoteTime : ℤ
  noteInterval : ℤ
deriving DecidableEq, Repr

/-- Embedding of `RhythmGame.check_hit` on the game state. -/
def RhythmGame.checkHit (g : RhythmGame) (lane : Nat) (isHold : Bool) : RhythmGame :=
  let r := checkHitAux g.hitZoneY lane isHold g.notes g.scoreManager
  { g with notes := r.1, scoreManager := r.2 }

/-- Embedding of `RhythmGame.update_notes`: advance every live note; an off-screen
note that was never hit records a Miss at base score 0; every
off-screen note is removed; the rest survive in order. -/
def RhythmGame.updateNotes (g : RhythmGame) : RhythmGame :=
  let r := g.notes.foldl
    (fun acc note =>
      let moved := note.update
      if moved.isOffScreen then
        if moved.hit = false then (acc.1, acc.2.addHit HitAccuracy.MISS 0)
        else acc
      else (acc.1 ++ [moved], acc.2))
    ([], g.scoreManager)
  { g with notes := r.1, scoreManager := r.2 }

/-- Embedding of `RhythmGame.spawn_note` with the clock and the random draw injected:
when the interval has elapsed, append the pre-drawn fresh note and reset
the spawn timer. -/
def RhythmGame.spawnNote (g : RhythmGame) (currentTime : ℤ) (fresh : Note) : RhythmGame :=
  if g.noteInterval < currentTime - g.lastNoteTime then
    { g with notes := g.notes ++ [fresh], lastNoteTime := currentTime }
  else g

/-- Embedding of `RhythmGame.handle_input`: resolve every fresh-press lane with
`check_hit(lane, False)`, then every held lane with `check_hit(lane, True)`. -/
def RhythmGame.handleInput (g : RhythmGame) (pressed held : List Nat) : RhythmGame :=
  let g2 := pressed.foldl (fun gg lane => gg.checkHit lane false) g
  held.foldl (fun gg lane => gg.checkHit lane true) g2

/-- One iteration of the engine phases of `RhythmGame.run`, in source
order: `handle_input`, then `spawn_note`, then `update_notes`. -/
def RhythmGame.frame (g : RhythmGame) (pressed held : List Nat) (currentTime : ℤ) (fresh : Note) : RhythmGame :=
  ((g.handleInput pressed held).spawnNote currentTime fresh).updateNotes

/-- The per-frame phase order the spec describes, for comparison with
`RhythmGame.frame`: spawn gate first, then advance-and-expire, then
input resolution. -/
def frameClaimOrder (g : RhythmGame) (pressed held : List Nat) (currentTime : ℤ) (fresh : Note) : RhythmGame :=
  ((g.spawnNote currentTime fresh).updateNotes).handleInput pressed held

theorem pyInt_eq_floor {q : ℚ} (h : 0 ≤ q) : pyInt q = ⌊q⌋ := if_pos h

theorem pyInt_nonneg {q : ℚ} (h : 0 ≤ q) : 0 ≤ pyInt q := by
  rw [pyInt_eq_floor h]
  exact Int.floor_nonneg.mpr h

theorem rne_intCast (m : ℤ) : rne (m : ℚ) = m := by
  unfold rne
  rw [Int.floor_intCast]
  norm_num

theorem floor_le_rne (x : ℚ) : ⌊x⌋ ≤ rne x := by
  unfold rne
  split_ifs with h1 h2
  · exact le_refl _
  · linarith
  · have : 0 ≤ ⌊x⌋ % 2 := Int.emod_nonneg _ (by norm_num)
    linarith

theorem rne_le_floor_add_one (x : ℚ) : rne x ≤ ⌊x⌋ + 1 := by
  unfold rne
  split_ifs with h1 h2
  · linarith
  · exact le_refl _
  · have : ⌊x⌋ % 2 < 2 := Int.emod_lt_of_pos _ (by norm_num)
    linarith

theorem rne_mono {x y : ℚ} (h : x ≤ y) : rne x ≤ rne y := by
  rcases eq_or_lt_of_le (Int.floor_le_floor h) with hf | hf
  · have hm0 : 0 ≤ ⌊x⌋ % 2 := Int.emod_nonneg _ (by norm_num)
    have hm2 : ⌊x⌋ % 2 < 2 := Int.emod_lt_of_pos _ (by norm_num)
    unfold rne
    rw [← hf]
    split_ifs <;> first | omega | linarith
  · calc rne x ≤ ⌊x⌋ + 1 := rne_le_floor_add_one x
    _ ≤ ⌊y⌋ := by omega
    _ ≤ rne y := floor_le_rne y

theorem log2_eq {q : ℚ} {e : ℤ} (h0 : 0 < q) (h1 : (2:ℚ) ^ e ≤ q) (h2 : q < (2:ℚ) ^ (e + 1)) :
    Int.log 2 q = e := by
  have hcast : ((2:ℕ):ℚ) = (2:ℚ) := by norm_num
  refine le_antisymm ?_ ?_
  · by_contra hlt
    push_neg at hlt
    have step : (2:ℚ) ^ (e + 1) ≤ (2:ℚ) ^ (Int.log 2 q) :=
      zpow_le_zpow_right₀ (by norm_num) (by omega)
    have hlog := Int.zpow_log_le_self (b := 2) (R := ℚ) (by norm_num) h0
    rw [hcast] at hlog
    linarith
  · have := (Int.zpow_le_iff_le_log (b := 2) (R := ℚ) (by norm_num) h0 (x := e)).mp
    rw [hcast] at this
    exact this h1

/-- Unfolding of fl once the binade of the argument is known. -/
theorem fl_eval {q : ℚ} {e : ℤ} (h0 : 0 < q) (h1 : (2:ℚ) ^ e ≤ q) (h2 : q < (2:ℚ) ^ (e + 1)) :
    fl q = rne (q / 2 ^ (e - 52)) * 2 ^ (e - 52) := by
  unfold fl
  rw [if_neg (ne_of_gt h0), abs_of_pos h0, log2_eq h0 h1 h2]

theorem fl_zero : fl 0 = 0 := if_pos rfl

theorem fl_lower {q : ℚ} (h0 : 0 < q) : (2:ℚ) ^ (Int.log 2 q) ≤ fl q := by
  have hcast : ((2:ℕ):ℚ) = (2:ℚ) := by norm_num
  have hlog := Int.zpow_log_le_self (b := 2) (R := ℚ) (by norm_num) h0
  rw [hcast] at hlog
  unfold fl
  rw [if_neg (ne_of_gt h0), abs_of_pos h0]
  have hEpos : (0:ℚ) < 2 ^ (Int.log 2 q - 52) := zpow_pos (by norm_num) _
  have hx : (2:ℚ) ^ (52:ℤ) ≤ q / 2 ^ (Int.log 2 q - 52) := by
    rw [le_div_iff₀ hEpos, ← zpow_add₀ (by norm_num : (2:ℚ) ≠ 0)]
    have : (52:ℤ) + (Int.log 2 q - 52) = Int.log 2 q := by ring
    rw [this]
    exact hlog
  have hfloor : (2:ℤ) ^ (52:ℕ) ≤ ⌊q / 2 ^ (Int.log 2 q - 52)⌋ := by
    have h52 : ((2:ℤ)^(52:ℕ) : ℚ) ≤ q / 2 ^ (Int.log 2 q - 52) := by
      push_cast
      rw [show ((2:ℚ)^(52:ℕ)) = (2:ℚ)^((52:ℕ):ℤ) from (zpow_natCast 2 52).symm]
      exact_mod_cast hx
    exact Int.le_floor.mpr h52
  have hrne : (2:ℤ) ^ (52:ℕ) ≤ rne (q / 2 ^ (Int.log 2 q - 52)) :=
    le_trans hfloor (floor_le_rne _)
  calc (2:ℚ) ^ (Int.log 2 q)
      = (2:ℚ) ^ (52:ℤ) * 2 ^ (Int.log 2 q - 52) := by
        rw [← zpow_add₀ (by norm_num : (2:ℚ) ≠ 0)]
        congr 1
        ring
    _ ≤ (rne (q / 2 ^ (Int.log 2 q - 52)) : ℚ) * 2 ^ (Int.log 2 q - 52) := by
        apply mul_le_mul_of_nonneg_right _ (le_of_lt hEpos)
        rw [show ((2:ℚ)^(52:ℤ)) = (((2:ℤ)^(52:ℕ) : ℤ) : ℚ) by push_cast; exact (zpow_natCast 2 52)]
        exact_mod_cast hrne

theorem fl_nonneg {q : ℚ} (h : 0 ≤ q) : 0 ≤ fl q := by
  rcases eq_or_lt_of_le h with h0 | h0
  · rw [← h0, fl_zero]
  · exact le_trans (le_of_lt (zpow_pos (by norm_num) _)) (fl_lower h0)

theorem fl_pos {q : ℚ} (h : 0 < q) : 0 < fl q :=
  lt_of_lt_of_le (zpow_pos (by norm_num) _) (fl_lower h)

theorem fl_upper {q : ℚ} (h0 : 0 < q) : fl q ≤ (2:ℚ) ^ (Int.log 2 q + 1) := by
  have hcast : ((2:ℕ):ℚ) = (2:ℚ) := by norm_num
  have hlog := Int.lt_zpow_succ_log_self (b := 2) (R := ℚ) (by norm_num) q
  rw [hcast] at hlog
  unfold fl
  rw [if_neg (ne_of_gt h0), abs_of_pos h0]
  have hEpos : (0:ℚ) < 2 ^ (Int.log 2 q - 52) := zpow_pos (by norm_num) _
  have hx : q / 2 ^ (Int.log 2 q - 52) < (2:ℚ) ^ (53:ℤ) := by
    rw [div_lt_iff₀ hEpos, ← zpow_add₀ (by norm_num : (2:ℚ) ≠ 0)]
    have : (53:ℤ) + (Int.log 2 q - 52) = Int.log 2 q + 1 := by ring
    rw [this]
    exact hlog
  have hfloor : ⌊q / 2 ^ (Int.log 2 q - 52)⌋ < (2:ℤ) ^ (53:ℕ) := by
    apply Int.floor_lt.mpr
    calc q / 2 ^ (Int.log 2 q - 52) < (2:ℚ) ^ (53:ℤ) := hx
    _ = (((2:ℤ) ^ (53:ℕ) : ℤ) : ℚ) := by norm_num
  have hrne : rne (q / 2 ^ (Int.log 2 q - 52)) ≤ (2:ℤ) ^ (53:ℕ) := by
    have := rne_le_floor_add_one (q / 2 ^ (Int.log 2 q - 52))
    omega
  calc (rne (q / 2 ^ (Int.log 2 q - 52)) : ℚ) * 2 ^ (Int.log 2 q - 52)
      ≤ ((2:ℤ)^(53:ℕ) : ℚ) * 2 ^ (Int.log 2 q - 52) := by
        apply mul_le_mul_of_nonneg_right _ (le_of_lt hEpos)
        exact_mod_cast hrne
    _ = (2:ℚ) ^ (53:ℤ) * 2 ^ (Int.log 2 q - 52) := by norm_num
    _ = (2:ℚ) ^ (Int.log 2 q + 1) := by
        rw [← zpow_add₀ (by norm_num : (2:ℚ) ≠ 0)]
        congr 1
        ring

theorem fl_mono {x y : ℚ} (hx : 0 < x) (hxy : x ≤ y) : fl x ≤ fl y := by
  have hy : 0 < y := lt_of_lt_of_le hx hxy
  rcases lt_trichotomy (Int.log 2 x) (Int.log 2 y) with hl | hl | hl
  · calc fl x ≤ (2:ℚ) ^ (Int.log 2 x + 1) := fl_upper hx
      _ ≤ (2:ℚ) ^ (Int.log 2 y) := zpow_le_zpow_right₀ (by norm_num) (by omega)
      _ ≤ fl y := fl_lower hy
  · unfold fl
    rw [if_neg (ne_of_gt hx), if_neg (ne_of_gt hy), abs_of_pos hx, abs_of_pos hy, hl]
    have hEpos : (0:ℚ) < 2 ^ (Int.log 2 y - 52) := zpow_pos (by norm_num) _
    apply mul_le_mul_of_nonneg_right _ (le_of_lt hEpos)
    have hd : x / 2 ^ (Int.log 2 y - 52) ≤ y / 2 ^ (Int.log 2 y - 52) := by
      gcongr
    exact_mod_cast rne_mono hd
  · exfalso
    have h1 := Int.lt_zpow_succ_log_self (b := 2) (R := ℚ) (by norm_num) y
    have h2 := Int.zpow_log_le_self (b := 2) (R := ℚ) (by norm_num) hx
    have hcast : ((2:ℕ):ℚ) = (2:ℚ) := by norm_num
    rw [hcast] at h1 h2
    have step : (2:ℚ) ^ (Int.log 2 y + 1) ≤ (2:ℚ) ^ (Int.log 2 x) :=
      zpow_le_zpow_right₀ (by norm_num) (by omega)
    linarith

theorem rne_eq_of_lt {x : ℚ} {f : ℤ} (hf : ⌊x⌋ = f) (h : x - f < 1 / 2) : rne x = f := by
  unfold rne
  rw [hf, if_pos h]

theorem rne_eq_of_gt {x : ℚ} {f : ℤ} (hf : ⌊x⌋ = f) (h : 1 / 2 < x - f) : rne x = f + 1 := by
  unfold rne
  rw [hf, if_neg (by linarith), if_pos h]

theorem rne_eq_of_tie {x : ℚ} {f : ℤ} (hf : ⌊x⌋ = f) (h : x - f = 1 / 2) : rne x = f + f % 2 := by
  unfold rne
  rw [hf, if_neg (by linarith), if_neg (by linarith)]

/-- Evaluation of fl at a value that rounds down. -/
theorem fl_eq_down {q : ℚ} {e f : ℤ} (h0 : 0 < q) (h1 : (2:ℚ) ^ e ≤ q) (h2 : q < (2:ℚ) ^ (e + 1))
    (hf : ⌊q / 2 ^ (e - 52)⌋ = f) (hhalf : q / 2 ^ (e - 52) - f < 1 / 2) :
    fl q = (f : ℚ) * 2 ^ (e - 52) := by
  rw [fl_eval h0 h1 h2, rne_eq_of_lt hf hhalf]

/-- Evaluation of fl at a value that rounds up. -/
theorem fl_eq_up {q : ℚ} {e f : ℤ} (h0 : 0 < q) (h1 : (2:ℚ) ^ e ≤ q) (h2 : q < (2:ℚ) ^ (e + 1))
    (hf : ⌊q / 2 ^ (e - 52)⌋ = f) (hhalf : 1 / 2 < q / 2 ^ (e - 52) - f) :
    fl q = ((f : ℚ) + 1) * 2 ^ (e - 52) := by
  rw [fl_eval h0 h1 h2, rne_eq_of_gt hf hhalf]
  push_cast
  ring

/-- Evaluation of fl at an exact tie, which rounds to the even neighbour. -/
theorem fl_eq_tie {q : ℚ} {e f : ℤ} (h0 : 0 < q) (h1 : (2:ℚ) ^ e ≤ q) (h2 : q < (2:ℚ) ^ (e + 1))
    (hf : ⌊q / 2 ^ (e - 52)⌋ = f) (hhalf : q / 2 ^ (e - 52) - f = 1 / 2) :
    fl q = ((f + f % 2 : ℤ) : ℚ) * 2 ^ (e - 52) := by
  rw [fl_eval h0 h1 h2, rne_eq_of_tie hf hhalf]

/-- Integers of magnitude below 2^53 are exactly representable. -/
theorem fl_int {n : ℤ} (h0 : 0 < n) (h53 : n < 2 ^ (53:ℕ)) : fl (n : ℚ) = n := by
  have h0q : (0:ℚ) < (n:ℚ) := by exact_mod_cast h0
  have hcast : ((2:ℕ):ℚ) = (2:ℚ) := by norm_num
  have hlow : (2:ℚ) ^ (Int.log 2 (n:ℚ)) ≤ (n:ℚ) := by
    have := Int.zpow_log_le_self (b := 2) (R := ℚ) (by norm_num) h0q
    rwa [hcast] at this
  have hL52 : Int.log 2 (n:ℚ) ≤ 52 := by
    by_contra hgt
    push_neg at hgt
    have step : (2:ℚ) ^ (53:ℤ) ≤ (2:ℚ) ^ (Int.log 2 (n:ℚ)) :=
      zpow_le_zpow_right₀ (by norm_num) (by omega)
    have : (2:ℚ) ^ (53:ℤ) ≤ (n:ℚ) := le_trans step hlow
    have h2 : (((2:ℤ) ^ (53:ℕ) : ℤ) : ℚ) ≤ (n:ℚ) := by
      calc (((2:ℤ) ^ (53:ℕ) : ℤ) : ℚ) = (2:ℚ) ^ (53:ℤ) := by norm_num
      _ ≤ (n:ℚ) := this
    exact absurd (by exact_mod_cast h2) (not_le.mpr h53)
  have hk : (0:ℤ) ≤ 52 - Int.log 2 (n:ℚ) := by omega
  have hpow : ((2:ℚ) ^ ((52 - Int.log 2 (n:ℚ)).toNat : ℕ)) = (2:ℚ) ^ (52 - Int.log 2 (n:ℚ)) := by
    rw [← zpow_natCast (2:ℚ), Int.toNat_of_nonneg hk]
  have hint : ((n * 2 ^ (52 - Int.log 2 (n:ℚ)).toNat : ℤ) : ℚ) = (n:ℚ) * 2 ^ (52 - Int.log 2 (n:ℚ)) := by
    push_cast
    rw [hpow]
  have hEne : ((2:ℚ) ^ (Int.log 2 (n:ℚ) - 52)) ≠ 0 := ne_of_gt (zpow_pos (by norm_num) _)
  have hxeq : (n:ℚ) / 2 ^ (Int.log 2 (n:ℚ) - 52) = ((n * 2 ^ (52 - Int.log 2 (n:ℚ)).toNat : ℤ) : ℚ) := by
    rw [hint, div_eq_iff hEne, mul_assoc, ← zpow_add₀ (by norm_num : (2:ℚ) ≠ 0)]
    have hz : 52 - Int.log 2 (n:ℚ) + (Int.log 2 (n:ℚ) - 52) = 0 := by ring
    rw [hz, zpow_zero, mul_one]
  unfold fl
  rw [if_neg (ne_of_gt h0q), abs_of_pos h0q, hxeq, rne_intCast, hint, mul_assoc,
    ← zpow_add₀ (by norm_num : (2:ℚ) ≠ 0)]
  have hz : 52 - Int.log 2 (n:ℚ) + (Int.log 2 (n:ℚ) - 52) = 0 := by ring
  rw [hz, zpow_zero, mul_one]

/-- Exact representability of an integer literal given as a rational. -/
theorem fl_intLit (n : ℤ) (h0 : 0 < n) (h53 : n < 2 ^ (53:ℕ)) {q : ℚ} (hq : q = (n : ℚ)) :
    fl q = q := by
  rw [hq, fl_int h0 h53]

theorem floatMul_nonneg {a b : ℚ} (ha : 0 ≤ a) (hb : 0 ≤ b) : 0 ≤ floatMul a b :=
  fl_nonneg (mul_nonneg ha hb)

theorem floatAdd_nonneg {a b : ℚ} (ha : 0 ≤ a) (hb : 0 ≤ b) : 0 ≤ floatAdd a b :=
  fl_nonneg (add_nonneg ha hb)

/-- The binary64 value of the Python literal 0.1. -/
theorem fl_tenth : fl (1 / 10) = 3602879701896397 / 2 ^ (55:ℕ) := by
  rw [fl_eq_up (e := -4) (f := 7205759403792793) (by norm_num) (by norm_num) (by norm_num)
    (by norm_num) (by norm_num)]
  norm_num

/-- Rounding 2 + 2^-53 (which is 20 × fl 0.1) lands back on 2. -/
theorem fl_two_eps : fl (2 + 1 / 2 ^ (53:ℕ)) = 2 := by
  rw [fl_eq_down (e := 1) (f := 4503599627370496) (by norm_num) (by norm_num) (by norm_num)
    (by norm_num) (by norm_num)]
  norm_num

/-- C7: Note.calculate_accuracy is a pure step function of the distance:
Perfect exactly on d ≤ 15, Good exactly on 15 < d ≤ 30, Miss exactly on
d > 30; in particular d = 0 and d = 15 give Perfect, d = 15.0001 and
d = 30 give Good, and d = 30.0001 gives Miss. -/
theorem claim_C7_classifier_step :
    (∀ d : ℚ,
      (calculateAccuracy d = HitAccuracy.PERFECT ↔ d ≤ 15) ∧
      (calculateAccuracy d = HitAccuracy.GOOD ↔ 15 < d ∧ d ≤ 30) ∧
      (calculateAccuracy d = HitAccuracy.MISS ↔ 30 < d)) ∧
    calculateAccuracy 0 = HitAccuracy.PERFECT ∧
    calculateAccuracy 15 = HitAccuracy.PERFECT ∧
    calculateAccuracy (150001 / 10000) = HitAccuracy.GOOD ∧
    calculateAccuracy 30 = HitAccuracy.GOOD ∧
    calculateAccuracy (300001 / 10000) = HitAccuracy.MISS := by
  have hstep : ∀ d : ℚ,
      (calculateAccuracy d = HitAccuracy.PERFECT ↔ d ≤ 15) ∧
      (calculateAccuracy d = HitAccuracy.GOOD ↔ 15 < d ∧ d ≤ 30) ∧
      (calculateAccuracy d = HitAccuracy.MISS ↔ 30 < d) := by
    intro d
    unfold calculateAccuracy
    by_cases h15 : d ≤ 15
    · rw [if_pos h15]
      exact ⟨⟨fun _ => h15, fun _ => rfl⟩,
        ⟨fun h => HitAccuracy.noConfusion h, fun h => absurd h.1 (not_lt.mpr h15)⟩,
        ⟨fun h => HitAccuracy.noConfusion h, fun h => absurd h (by push_neg; linarith)⟩⟩
    · by_cases h30 : d ≤ 30
      · rw [if_neg h15, if_pos h30]
        exact ⟨⟨fun h => HitAccuracy.noConfusion h, fun h => absurd h h15⟩,
          ⟨fun _ => ⟨not_le.mp h15, h30⟩, fun _ => rfl⟩,
          ⟨fun h => HitAccuracy.noConfusion h, fun h => absurd h (not_lt.mpr h30)⟩⟩
      · rw [if_neg h15, if_neg h30]
        exact ⟨⟨fun h => HitAccuracy.noConfusion h, fun h => absurd h h15⟩,
          ⟨fun h => HitAccuracy.noConfusion h, fun h => absurd h.2 h30⟩,
          ⟨fun _ => not_le.mp h30, fun _ => rfl⟩⟩
  exact ⟨hstep, ((hstep 0).1).mpr (by norm_num), ((hstep 15).1).mpr (by norm_num),
    ((hstep _).2.1).mpr (by norm_num), ((hstep 30).2.1).mpr (by norm_num),
    ((hstep _).2.2).mpr (by norm_num)⟩

/-- C6: for every ledger state and base score, recording a Miss bumps the
Miss counter by one, resets the combo to 0, and leaves the cumulative
score, the max combo, and the Perfect and Good counters unchanged. -/
theorem claim_C6_miss_effect :
    ∀ (sm : ScoreManager) (base : ℤ),
      (sm.addHit HitAccuracy.MISS base).missHits = sm.missHits + 1 ∧
      (sm.addHit HitAccuracy.MISS base).combo = 0 ∧
      (sm.addHit HitAccuracy.MISS base).score = sm.score ∧
      (sm.addHit HitAccuracy.MISS base).maxCombo = sm.maxCombo ∧
      (sm.addHit HitAccuracy.MISS base).perfectHits = sm.perfectHits ∧
      (sm.addHit HitAccuracy.MISS base).goodHits = sm.goodHits := by
  intro sm base
  simp [ScoreManager.addHit, ScoreManager.bumpHits]

/-- C8: get_accuracy_percentage returns 0 when all counters are zero and
otherwise (Perfect + Good) / total * 100 with Misses counted in the
total; with 3 Perfect, 1 Good, 1 Miss it is 80. It is embedded as a
pure function of the ledger (the source method only reads it). -/
theorem claim_C8_accuracy_percentage :
    (∀ sm : ScoreManager, sm.perfectHits + sm.goodHits + sm.missHits = 0 →
      sm.getAccuracyPercentage = 0) ∧
    (∀ sm : ScoreManager, sm.perfectHits + sm.goodHits + sm.missHits ≠ 0 →
      sm.getAccuracyPercentage =
        ((sm.perfectHits + sm.goodHits : ℤ) : ℚ) / ((sm.perfectHits + sm.goodHits + sm.missHits : ℤ) : ℚ) * 100) ∧
    ScoreManager.init.getAccuracyPercentage = 0 ∧
    ScoreManager.getAccuracyPercentage { score := 0, combo := 0, maxCombo := 0, perfectHits := 3, goodHits := 1, missHits := 1 } = 80 := by
  refine ⟨?_, ?_, ?_, ?_⟩
  · intro sm h
    simp [ScoreManager.getAccuracyPercentage, h]
  · intro sm h
    simp [ScoreManager.getAccuracyPercentage, h]
  · simp [ScoreManager.getAccuracyPercentage, ScoreManager.init]
  · norm_num [ScoreManager.getAccuracyPercentage]

/-- Witness for C8 at the 3 Perfect + 1 Good + 1 Miss ledger. -/
theorem claim_C8_witness :
    ScoreManager.getAccuracyPercentage { score := 0, combo := 0, maxCombo := 0, perfectHits := 3, goodHits := 1, missHits := 1 } =
      (((3 : ℤ) + 1 : ℤ) : ℚ) / (((3 : ℤ) + 1 + 1 : ℤ) : ℚ) * 100 :=
  claim_C8_accuracy_percentage.2.1 _ (by decide)

/-- Structural form of add_hit on Perfect and Good: the combo is
incremented first, and the award is the scoring formula with every
conversion and operation rounded to binary64, truncated by int(). -/
theorem addHit_score_eq (sm : ScoreManager) (base : ℤ) :
    (sm.addHit HitAccuracy.PERFECT base).combo = sm.combo + 1 ∧
    (sm.addHit HitAccuracy.PERFECT base).score =
      sm.score + pyInt (floatMul (floatMul (fl (base : ℚ)) (3 / 2))
        (floatAdd 1 (min (floatMul (fl ((sm.combo + 1 : ℤ) : ℚ)) (fl (1 / 10))) 2))) ∧
    (sm.addHit HitAccuracy.GOOD base).combo = sm.combo + 1 ∧
    (sm.addHit HitAccuracy.GOOD base).score =
      sm.score + pyInt (floatMul (floatMul (fl (base : ℚ)) 1)
        (floatAdd 1 (min (floatMul (fl ((sm.combo + 1 : ℤ) : ℚ)) (fl (1 / 10))) 2))) := by
  refine ⟨?_, ?_, ?_, ?_⟩
  · simp [ScoreManager.addHit, ScoreManager.bumpHits]
  · simp only [ScoreManager.addHit, ScoreManager.bumpHits]
    rw [if_pos (by decide : HitAccuracy.PERFECT ≠ HitAccuracy.MISS)]
    simp only [if_pos rfl, if_true]
  · simp [ScoreManager.addHit, ScoreManager.bumpHits]
  · simp only [ScoreManager.addHit, ScoreManager.bumpHits]
    rw [if_pos (by decide : HitAccuracy.GOOD ≠ HitAccuracy.MISS)]
    rw [if_neg (by decide : ¬ HitAccuracy.GOOD = HitAccuracy.PERFECT)]

/-- C5 counterexample: from a ledger at combo 12, a Good at base score
100 awards 229, not the 230 the exact-real formula gives: the doubles
13 * 0.1 and 1 + 1.3 round to 2.2999999999999998, 100 times that is
229.99999999999997, and int() truncates to 229. -/
theorem claim_C5_counterexample :
    (ScoreManager.addHit { score := 0, combo := 12, maxCombo := 12, perfectHits := 0, goodHits := 12, missHits := 0 } HitAccuracy.GOOD 100).score = 229 ∧
    ⌊((100 : ℤ) : ℚ) * 1 * (1 + min (((13 : ℤ) : ℚ) * (1 / 10)) 2)⌋ = 230 := by
  constructor
  · rw [(addHit_score_eq { score := 0, combo := 12, maxCombo := 12, perfectHits := 0, goodHits := 12, missHits := 0 } 100).2.2.2]
    norm_num
    rw [fl_intLit 100 (by norm_num) (by norm_num) (by norm_num)]
    rw [fl_intLit 13 (by norm_num) (by norm_num) (by norm_num)]
    rw [fl_tenth]
    have e1 : floatMul (13 : ℚ) (3602879701896397 / 2 ^ (55:ℕ)) = 5854679515581645 / 2 ^ (52:ℕ) := by
      show fl ((13 : ℚ) * (3602879701896397 / 2 ^ (55:ℕ))) = 5854679515581645 / 2 ^ (52:ℕ)
      rw [fl_eq_down (e := 0) (f := 5854679515581645) (by norm_num) (by norm_num) (by norm_num)
        (by norm_num) (by norm_num)]
      norm_num
    rw [e1, min_eq_left (by norm_num)]
    have e2 : floatAdd (1 : ℚ) (5854679515581645 / 2 ^ (52:ℕ)) = 5179139571476070 / 2 ^ (51:ℕ) := by
      show fl (1 + 5854679515581645 / 2 ^ (52:ℕ)) = 5179139571476070 / 2 ^ (51:ℕ)
      rw [fl_eq_tie (e := 1) (f := 5179139571476070) (by norm_num) (by norm_num) (by norm_num)
        (by norm_num) (by norm_num)]
      norm_num
    rw [e2]
    have e3 : floatMul (100 : ℚ) 1 = 100 := by
      show fl ((100 : ℚ) * 1) = 100
      rw [mul_one]
      exact fl_intLit 100 (by norm_num) (by norm_num) (by norm_num)
    rw [e3]
    have e4 : floatMul (100 : ℚ) (5179139571476070 / 2 ^ (51:ℕ)) = 8092405580431359 / 2 ^ (45:ℕ) := by
      show fl ((100 : ℚ) * (5179139571476070 / 2 ^ (51:ℕ))) = 8092405580431359 / 2 ^ (45:ℕ)
      rw [fl_eq_down (e := 7) (f := 8092405580431359) (by norm_num) (by norm_num) (by norm_num)
        (by norm_num) (by norm_num)]
      norm_num
    rw [e4, pyInt_eq_floor (by norm_num)]
    norm_num
  · rw [min_eq_left (by norm_num)]
    norm_num

/-- C5 (amended): on every record of a Perfect or Good hit the combo is
incremented first, and the award is base_score × multiplier ×
(1 + min(combo × 0.1, 2.0)) — multiplier 1.5 for Perfect and 1.0 for
Good — evaluated in IEEE-754 double arithmetic (each conversion and
operation rounded to nearest, ties to even) and truncated by int();
in particular every Perfect at base score 100 from combo ≥ 19 awards
exactly 450 (the combo bonus caps at 2.0), 20 consecutive Perfects at
base score 100 from a fresh ledger end with combo = 20, and a single
Perfect at base score 100 from a fresh ledger awards exactly 165 and
sets combo to 1. -/
theorem claim_C5_award_float :
    (∀ (sm : ScoreManager) (base : ℤ),
      (sm.addHit HitAccuracy.PERFECT base).combo = sm.combo + 1 ∧
      (sm.addHit HitAccuracy.PERFECT base).score =
        sm.score + pyInt (floatMul (floatMul (fl (base : ℚ)) (3 / 2))
          (floatAdd 1 (min (floatMul (fl ((sm.combo + 1 : ℤ) : ℚ)) (fl (1 / 10))) 2))) ∧
      (sm.addHit HitAccuracy.GOOD base).combo = sm.combo + 1 ∧
      (sm.addHit HitAccuracy.GOOD base).score =
        sm.score + pyInt (floatMul (floatMul (fl (base : ℚ)) 1)
          (floatAdd 1 (min (floatMul (fl ((sm.combo + 1 : ℤ) : ℚ)) (fl (1 / 10))) 2)))) ∧
    (∀ sm : ScoreManager, 19 ≤ sm.combo →
      (sm.addHit HitAccuracy.PERFECT 100).score = sm.score + 450) ∧
    ((fun sm => sm.addHit HitAccuracy.PERFECT 100)^[20] ScoreManager.init).combo = 20 ∧
    (ScoreManager.init.addHit HitAccuracy.PERFECT 100).score = 165 ∧
    (ScoreManager.init.addHit HitAccuracy.PERFECT 100).combo = 1 := by
  refine ⟨addHit_score_eq, ?_, by decide, ?_, by decide⟩
  · intro sm h19
    rw [(addHit_score_eq sm 100).2.1]
    have h20 : (20 : ℚ) ≤ fl ((sm.combo + 1 : ℤ) : ℚ) := by
      have hfl20 : fl (((20:ℤ)) : ℚ) = ((20:ℤ) : ℚ) := fl_int (by norm_num) (by norm_num)
      calc (20 : ℚ) = fl (((20:ℤ)) : ℚ) := by rw [hfl20]; norm_num
      _ ≤ fl ((sm.combo + 1 : ℤ) : ℚ) := by
          apply fl_mono (by norm_num)
          exact_mod_cast (by omega : (20:ℤ) ≤ sm.combo + 1)
    have hbig : (2 : ℚ) ≤ floatMul (fl ((sm.combo + 1 : ℤ) : ℚ)) (fl (1 / 10)) := by
      rw [fl_tenth]
      show (2 : ℚ) ≤ fl (fl ((sm.combo + 1 : ℤ) : ℚ) * (3602879701896397 / 2 ^ (55:ℕ)))
      have hstep : (2 + 1 / 2 ^ (53:ℕ) : ℚ) ≤ fl ((sm.combo + 1 : ℤ) : ℚ) * (3602879701896397 / 2 ^ (55:ℕ)) := by
        calc (2 + 1 / 2 ^ (53:ℕ) : ℚ) = 20 * (3602879701896397 / 2 ^ (55:ℕ)) := by norm_num
        _ ≤ fl ((sm.combo + 1 : ℤ) : ℚ) * (3602879701896397 / 2 ^ (55:ℕ)) :=
            mul_le_mul_of_nonneg_right h20 (by norm_num)
      calc (2 : ℚ) = fl (2 + 1 / 2 ^ (53:ℕ)) := fl_two_eps.symm
      _ ≤ fl (fl ((sm.combo + 1 : ℤ) : ℚ) * (3602879701896397 / 2 ^ (55:ℕ))) :=
          fl_mono (by positivity) hstep
    rw [min_eq_right hbig]
    have hA : floatAdd (1 : ℚ) 2 = 3 := by
      show fl ((1 : ℚ) + 2) = 3
      rw [show ((1 : ℚ) + 2) = (3 : ℚ) by norm_num]
      exact fl_intLit 3 (by norm_num) (by norm_num) (by norm_num)
    rw [hA]
    rw [fl_intLit 100 (by norm_num) (by norm_num) (by norm_num)]
    have hC : floatMul (((100:ℤ)) : ℚ) (3 / 2) = 150 := by
      show fl ((((100:ℤ)) : ℚ) * (3 / 2)) = 150
      rw [show ((((100:ℤ)) : ℚ) * (3 / 2)) = (150 : ℚ) by norm_num]
      exact fl_intLit 150 (by norm_num) (by norm_num) (by norm_num)
    rw [hC]
    have hD : floatMul (150 : ℚ) 3 = 450 := by
      show fl ((150 : ℚ) * 3) = 450
      rw [show ((150 : ℚ) * 3) = (450 : ℚ) by norm_num]
      exact fl_intLit 450 (by norm_num) (by norm_num) (by norm_num)
    rw [hD, pyInt_eq_floor (by norm_num)]
    norm_num
  · rw [(addHit_score_eq ScoreManager.init 100).2.1]
    norm_num [ScoreManager.init]
    rw [fl_intLit 100 (by norm_num) (by norm_num) (by norm_num)]
    rw [fl_intLit 1 (by norm_num) (by norm_num) (by norm_num)]
    rw [fl_tenth]
    have e1 : floatMul (1 : ℚ) (3602879701896397 / 2 ^ (55:ℕ)) = 3602879701896397 / 2 ^ (55:ℕ) := by
      show fl ((1 : ℚ) * (3602879701896397 / 2 ^ (55:ℕ))) = 3602879701896397 / 2 ^ (55:ℕ)
      rw [one_mul]
      rw [fl_eq_down (e := -4) (f := 7205759403792794) (by norm_num) (by norm_num) (by norm_num)
        (by norm_num) (by norm_num)]
      norm_num
    rw [e1, min_eq_left (by norm_num)]
    have e2 : floatAdd (1 : ℚ) (3602879701896397 / 2 ^ (55:ℕ)) = 4953959590107546 / 2 ^ (52:ℕ) := by
      show fl (1 + 3602879701896397 / 2 ^ (55:ℕ)) = 4953959590107546 / 2 ^ (52:ℕ)
      rw [fl_eq_up (e := 0) (f := 4953959590107545) (by norm_num) (by norm_num) (by norm_num)
        (by norm_num) (by norm_num)]
      norm_num
    rw [e2]
    have e3 : floatMul (100 : ℚ) (3 / 2) = 150 := by
      show fl ((100 : ℚ) * (3 / 2)) = 150
      rw [show ((100 : ℚ) * (3 / 2)) = (150 : ℚ) by norm_num]
      exact fl_intLit 150 (by norm_num) (by norm_num) (by norm_num)
    rw [e3]
    have e4 : floatMul (150 : ℚ) (4953959590107546 / 2 ^ (52:ℕ)) = 165 := by
      show fl (150 * (4953959590107546 / 2 ^ (52:ℕ))) = 165
      rw [fl_eq_down (e := 7) (f := 5805421394657280) (by norm_num) (by norm_num) (by norm_num)
        (by norm_num) (by norm_num)]
      norm_num
    rw [e4, pyInt_eq_floor (by norm_num)]
    norm_num

/-- Witness for C5: the capped-combo conjunct applied at a ledger with
combo 19. -/
theorem claim_C5_witness :
    (ScoreManager.addHit { score := 0, combo := 19, maxCombo := 19, perfectHits := 19, goodHits := 0, missHits := 0 } HitAccuracy.PERFECT 100).score =
      ({ score := 0, combo := 19, maxCombo := 19, perfectHits := 19, goodHits := 0, missHits := 0 } : ScoreManager).score + 450 :=
  claim_C5_award_float.2.1 _ (by decide)

/-- A note the fresh-press branch of check_hit can consume: right lane,
not yet hit, kind Normal or Special, within pixel distance 40 of the
hit line. -/
def pressEligible (hitZoneY : ℤ) (lane : Nat) (n : Note) : Prop :=
  n.lane = lane ∧ n.hit = false ∧ n.kind ≠ NoteType.HOLD ∧ n.hitZoneDistance hitZoneY ≤ 40

instance (hitZoneY : ℤ) (lane : Nat) (n : Note) : Decidable (pressEligible hitZoneY lane n) := by
  unfold pressEligible
  infer_instance

/-- A note the held-lane branch of check_hit touches: right lane, not
yet hit, a Hold note, within pixel distance 30 of the hit line. -/
def holdAffected (hitZoneY : ℤ) (lane : Nat) (n : Note) : Prop :=
  n.lane = lane ∧ n.hit = false ∧ n.kind = NoteType.HOLD ∧ n.hitZoneDistance hitZoneY ≤ 30

instance (hitZoneY : ℤ) (lane : Nat) (n : Note) : Decidable (holdAffected hitZoneY lane n) := by
  unfold holdAffected
  infer_instance

theorem checkHitAux_press_skip (hz : ℤ) (lane : Nat) (n : Note) (l : List Note) (sm : ScoreManager)
    (h : ¬ pressEligible hz lane n) :
    checkHitAux hz lane false (n :: l) sm =
      (n :: (checkHitAux hz lane false l sm).1, (checkHitAux hz lane false l sm).2) := by
  unfold pressEligible at h
  push_neg at h
  by_cases h1 : n.lane = lane ∧ n.hit = false
  · by_cases h2 : n.kind = NoteType.HOLD
    · simp [checkHitAux, h1, h2]
    · have hd : ¬ n.hitZoneDistance hz ≤ 40 := not_le.mpr (h h1.1 h1.2 h2)
      simp [checkHitAux, h1, h2, hd]
  · simp [checkHitAux, h1]

theorem checkHitAux_press_hit (hz : ℤ) (lane : Nat) (n : Note) (l : List Note) (sm : ScoreManager)
    (h : pressEligible hz lane n) :
    checkHitAux hz lane false (n :: l) sm =
      ({ n with hit := true } :: l, sm.addHit (calculateAccuracyZ (n.hitZoneDistance hz)) n.scoreValue) := by
  obtain ⟨hl, hh, hk, hd⟩ := h
  simp [checkHitAux, hl, hh, hk, hd]

theorem checkHitAux_press_first (hz : ℤ) (lane : Nat) :
    ∀ (l₁ : List Note) (n : Note) (l₂ : List Note) (sm : ScoreManager),
      (∀ m ∈ l₁, ¬ pressEligible hz lane m) → pressEligible hz lane n →
      checkHitAux hz lane false (l₁ ++ n :: l₂) sm =
        (l₁ ++ ({ n with hit := true }) :: l₂,
         sm.addHit (calculateAccuracyZ (n.hitZoneDistance hz)) n.scoreValue) := by
  intro l₁
  induction l₁ with
  | nil =>
    intro n l₂ sm _ hn
    simpa using checkHitAux_press_hit hz lane n l₂ sm hn
  | cons m l₁ ih =>
    intro n l₂ sm hskip hn
    rw [List.cons_append, checkHitAux_press_skip hz lane m _ sm (hskip m (by simp)),
      ih n l₂ sm (fun x hx => hskip x (by simp [hx])) hn]
    rfl

theorem checkHitAux_press_id (hz : ℤ) (lane : Nat) :
    ∀ (l : List Note) (sm : ScoreManager), (∀ m ∈ l, ¬ pressEligible hz lane m) →
      checkHitAux hz lane false l sm = (l, sm) := by
  intro l
  induction l with
  | nil => intro sm _; rfl
  | cons m l ih =>
    intro sm hall
    rw [checkHitAux_press_skip hz lane m l sm (hall m (by simp)),
      ih sm (fun x hx => hall x (by simp [hx]))]

/-- C4: for every fresh press on a lane whose scan prefix has no eligible
note, press resolution consumes exactly the first eligible Normal or
Special note, classifies it at its current distance via the 15/30
thresholds, records it, marks it hit and stops: the suffix after it and
every other note survive unchanged, so at most one note is consumed per
press, the earliest-spawned eligible note wins, and a Hold note is never
consumed (eligibility excludes kind Hold). -/
theorem claim_C4_press_resolution :
    ∀ (g : RhythmGame) (lane : Nat) (l₁ : List Note) (n : Note) (l₂ : List Note),
      g.notes = l₁ ++ n :: l₂ →
      (∀ m ∈ l₁, ¬ pressEligible g.hitZoneY lane m) →
      pressEligible g.hitZoneY lane n →
      g.checkHit lane false =
        { g with notes := l₁ ++ ({ n with hit := true }) :: l₂,
                 scoreManager := g.scoreManager.addHit (calculateAccuracyZ (n.hitZoneDistance g.hitZoneY)) n.scoreValue } := by
  intro g lane l₁ n l₂ hsplit hskip hn
  unfold RhythmGame.checkHit
  rw [hsplit, checkHitAux_press_first g.hitZoneY lane l₁ n l₂ g.scoreManager hskip hn]

/-- A Normal note in lane 0 whose centre sits exactly 15 pixels above the
hit line of the standard game (hit_zone_y = 500). -/
def pressDemoNote : Note :=
  { lane := 0, y := 505, kind := NoteType.NORMAL, hit := false, beingHeld := false, holdTimer := 0, hitRegistered := false }

/-- A one-note game state over the standard constructor parameters. -/
def pressDemoGame : RhythmGame :=
  { notes := [pressDemoNote], scoreManager := ScoreManager.init, hitZoneY := 500, lastNoteTime := 0, noteInterval := 800 }

/-- Witness for C4 at the one-note demo game. -/
theorem claim_C4_witness :
    pressDemoGame.checkHit 0 false =
      { pressDemoGame with
          notes := [] ++ ({ pressDemoNote with hit := true }) :: [],
          scoreManager := pressDemoGame.scoreManager.addHit (calculateAccuracyZ (pressDemoNote.hitZoneDistance pressDemoGame.hitZoneY)) pressDemoNote.scoreValue } :=
  claim_C4_press_resolution pressDemoGame 0 [] pressDemoNote [] rfl (by simp) (by decide)

/-- C9: a press on a lane with no eligible note is a no-op: the ledger
and every note flag are unchanged — an unmatched press is never
penalised as a Miss. -/
theorem claim_C9_press_no_match :
    ∀ (g : RhythmGame) (lane : Nat),
      (∀ m ∈ g.notes, ¬ pressEligible g.hitZoneY lane m) →
      g.checkHit lane false = g := by
  intro g lane h
  unfold RhythmGame.checkHit
  rw [checkHitAux_press_id g.hitZoneY lane g.notes g.scoreManager h]

/-- Witness for C9: a press on lane 1 of the demo game, whose only note
lives in lane 0, changes nothing. -/
theorem claim_C9_witness :
    pressDemoGame.checkHit 1 false = pressDemoGame :=
  claim_C9_press_no_match pressDemoGame 1 (by decide)

theorem checkHitAux_hold_skip (hz : ℤ) (lane : Nat) (n : Note) (l : List Note) (sm : ScoreManager)
    (h : ¬ holdAffected hz lane n) :
    checkHitAux hz lane true (n :: l) sm =
      (n :: (checkHitAux hz lane true l sm).1, (checkHitAux hz lane true l sm).2) := by
  unfold holdAffected at h
  push_neg at h
  by_cases h1 : n.lane = lane ∧ n.hit = false
  · by_cases h2 : n.kind = NoteType.HOLD
    · have hd : ¬ n.hitZoneDistance hz ≤ 30 := not_le.mpr (h h1.1 h1.2 h2)
      simp [checkHitAux, h1, h2, hd]
    · simp [checkHitAux, h1, h2]
  · simp [checkHitAux, h1]

theorem checkHitAux_hold_fresh (hz : ℤ) (lane : Nat) (n : Note) (l : List Note) (sm : ScoreManager)
    (h : holdAffected hz lane n) (hr : n.hitRegistered = false) :
    checkHitAux hz lane true (n :: l) sm =
      ({ n with beingHeld := true, holdTimer := n.holdTimer + 1, hitRegistered := true } ::
         (checkHitAux hz lane true l (sm.addHit (calculateAccuracyZ (n.hitZoneDistance hz)) n.scoreValue)).1,
       (checkHitAux hz lane true l (sm.addHit (calculateAccuracyZ (n.hitZoneDistance hz)) n.scoreValue)).2) := by
  obtain ⟨hl, hh, hk, hd⟩ := h
  simp [checkHitAux, hl, hh, hk, hd, hr]

theorem checkHitAux_hold_registered (hz : ℤ) (lane : Nat) (n : Note) (l : List Note) (sm : ScoreManager)
    (h : holdAffected hz lane n) (hr : n.hitRegistered = true) :
    checkHitAux hz lane true (n :: l) sm =
      ({ n with beingHeld := true, holdTimer := n.holdTimer + 1 } :: (checkHitAux hz lane true l sm).1,
       (checkHitAux hz lane true l sm).2) := by
  obtain ⟨hl, hh, hk, hd⟩ := h
  simp [checkHitAux, hl, hh, hk, hd, hr]

theorem checkHitAux_hold_id (hz : ℤ) (lane : Nat) :
    ∀ (l : List Note) (sm : ScoreManager), (∀ m ∈ l, ¬ holdAffected hz lane m) →
      checkHitAux hz lane true l sm = (l, sm) := by
  intro l
  induction l with
  | nil => intro sm _; rfl
  | cons m l ih =>
    intro sm hall
    rw [checkHitAux_hold_skip hz lane m l sm (hall m (by simp)),
      ih sm (fun x hx => hall x (by simp [hx]))]

theorem checkHitAux_hold_no_rescore (hz : ℤ) (lane : Nat) :
    ∀ (l : List Note) (sm : ScoreManager),
      (∀ m ∈ l, holdAffected hz lane m → m.hitRegistered = true) →
      (checkHitAux hz lane true l sm).2 = sm := by
  intro l
  induction l with
  | nil => intro sm _; rfl
  | cons m l ih =>
    intro sm hall
    by_cases hm : holdAffected hz lane m
    · rw [checkHitAux_hold_registered hz lane m l sm hm (hall m (by simp) hm)]
      exact ih sm fun x hx => hall x (by simp [hx])
    · rw [checkHitAux_hold_skip hz lane m l sm hm]
      exact ih sm fun x hx => hall x (by simp [hx])

/-- A Hold note in lane 0 whose centre sits 10 pixels above the hit line
of the standard game. -/
def holdDemoNote : Note :=
  { lane := 0, y := 470, kind := NoteType.HOLD, hit := false, beingHeld := false, holdTimer := 0, hitRegistered := false }

/-- A one-Hold-note game state over the standard constructor parameters. -/
def holdDemoGame : RhythmGame :=
  { notes := [holdDemoNote], scoreManager := ScoreManager.init, hitZoneY := 500, lastNoteTime := 0, noteInterval := 800 }

/-- C3: hold resolution on a held lane. First conjunct: when the first
hold-eligible (lane, unhit, Hold, distance ≤ 30) note in scan order has
no registered hit yet and nothing else in the lane is hold-eligible,
the call marks exactly that note being_held (bumping its hold timer),
sets its hit-registered flag, and records exactly its classified hit in
the ledger. Second conjunct: once every hold-eligible note in the lane
carries a registered hit, further held frames leave the ledger
untouched. Third conjunct: a Hold note held across 5 consecutive frames
inside the window registers exactly one hit. -/
theorem claim_C3_hold_resolution :
    (∀ (g : RhythmGame) (lane : Nat) (l₁ : List Note) (n : Note) (l₂ : List Note),
      g.notes = l₁ ++ n :: l₂ →
      (∀ m ∈ l₁, ¬ holdAffected g.hitZoneY lane m) →
      (∀ m ∈ l₂, ¬ holdAffected g.hitZoneY lane m) →
      holdAffected g.hitZoneY lane n →
      n.hitRegistered = false →
      g.checkHit lane true =
        { g with notes := l₁ ++ ({ n with beingHeld := true, holdTimer := n.holdTimer + 1, hitRegistered := true }) :: l₂,
                 scoreManager := g.scoreManager.addHit (calculateAccuracyZ (n.hitZoneDistance g.hitZoneY)) n.scoreValue }) ∧
    (∀ (g : RhythmGame) (lane : Nat),
      (∀ m ∈ g.notes, holdAffected g.hitZoneY lane m → m.hitRegistered = true) →
      (g.checkHit lane true).scoreManager = g.scoreManager) ∧
    (((fun g => g.frame [] [0] 0 holdDemoNote)^[5] holdDemoGame).scoreManager.perfectHits = 1 ∧
     ((fun g => g.frame [] [0] 0 holdDemoNote)^[5] holdDemoGame).scoreManager.goodHits = 0 ∧
     ((fun g => g.frame [] [0] 0 holdDemoNote)^[5] holdDemoGame).scoreManager.missHits = 0) := by
  refine ⟨?_, ?_, by decide⟩
  · intro g lane l₁ n l₂ hsplit hskip₁ hskip₂ hn hr
    unfold RhythmGame.checkHit
    rw [hsplit]
    have hfirst : ∀ (l : List Note) (sm : ScoreManager), (∀ m ∈ l, ¬ holdAffected g.hitZoneY lane m) →
        checkHitAux g.hitZoneY lane true (l ++ n :: l₂) sm =
          (l ++ ({ n with beingHeld := true, holdTimer := n.holdTimer + 1, hitRegistered := true }) :: l₂,
           sm.addHit (calculateAccuracyZ (n.hitZoneDistance g.hitZoneY)) n.scoreValue) := by
      intro l
      induction l with
      | nil =>
        intro sm _
        rw [List.nil_append, checkHitAux_hold_fresh g.hitZoneY lane n l₂ sm hn hr,
          checkHitAux_hold_id g.hitZoneY lane l₂ _ hskip₂]
        rfl
      | cons m l ih =>
        intro sm hall
        rw [List.cons_append, checkHitAux_hold_skip g.hitZoneY lane m _ sm (hall m (by simp)),
          ih sm (fun x hx => hall x (by simp [hx]))]
        rfl
    rw [hfirst l₁ g.scoreManager hskip₁]
  · intro g lane h
    show (checkHitAux g.hitZoneY lane true g.notes g.scoreManager).2 = g.scoreManager
    exact checkHitAux_hold_no_rescore g.hitZoneY lane g.notes g.scoreManager h

/-- Witness for C3: both universally quantified conjuncts applied at the
one-Hold-note demo game. -/
theorem claim_C3_witness :
    (holdDemoGame.checkHit 0 true =
      { holdDemoGame with
          notes := [] ++ ({ holdDemoNote with beingHeld := true, holdTimer := holdDemoNote.holdTimer + 1, hitRegistered := true }) :: [],
          scoreManager := holdDemoGame.scoreManager.addHit (calculateAccuracyZ (holdDemoNote.hitZoneDistance holdDemoGame.hitZoneY)) holdDemoNote.scoreValue }) ∧
    ((holdDemoGame.checkHit 1 true).scoreManager = holdDemoGame.scoreManager) :=
  ⟨claim_C3_hold_resolution.1 holdDemoGame 0 [] holdDemoNote [] rfl (by simp) (by simp) (by decide) rfl,
   claim_C3_hold_resolution.2.1 holdDemoGame 1 (by decide)⟩

set_option maxRecDepth 40000 in
/-- C1 (code-bug evidence): one Hold note, held once inside the window
(a Perfect is recorded), then left alone until it scrolls past the
bottom boundary. The hold branch of check_hit sets `_hit_registered`
but never the `hit` flag that update_notes consults, so the expiry
additionally records a Miss: the single note yields two ledger records,
contradicting the at-most-once scoring the spec states. The first frame
has lane 0 held; the remaining 32 frames have no input and a closed
spawn gate. -/
theorem claim_C1_hold_note_double_scored :
    ((holdDemoGame.frame [] [0] 0 holdDemoNote).scoreManager.perfectHits = 1 ∧
     (holdDemoGame.frame [] [0] 0 holdDemoNote).scoreManager.missHits = 0) ∧
    (((fun g => g.frame [] [] 0 holdDemoNote)^[32] (holdDemoGame.frame [] [0] 0 holdDemoNote)).scoreManager.perfectHits = 1 ∧
     ((fun g => g.frame [] [] 0 holdDemoNote)^[32] (holdDemoGame.frame [] [0] 0 holdDemoNote)).scoreManager.missHits = 1 ∧
     ((fun g => g.frame [] [] 0 holdDemoNote)^[32] (holdDemoGame.frame [] [0] 0 holdDemoNote)).notes = []) := by
  decide

/-- C2 counterexample: the engine phases do not run in the claimed order
spawn → advance/expire → input. With the demo note exactly 15 pixels
above the hit line, the code's frame (input resolved before the
advance) classifies Perfect, while the claimed phase order (advance
before input, distance then 19) classifies Good. -/
theorem claim_C2_counterexample :
    (pressDemoGame.frame [0] [] 0 pressDemoNote).scoreManager.perfectHits = 1 ∧
    (pressDemoGame.frame [0] [] 0 pressDemoNote).scoreManager.goodHits = 0 ∧
    (frameClaimOrder pressDemoGame [0] [] 0 pressDemoNote).scoreManager.perfectHits = 0 ∧
    (frameClaimOrder pressDemoGame [0] [] 0 pressDemoNote).scoreManager.goodHits = 1 := by
  decide

/-- C2 amended: in every iteration of the main loop the engine phases
run in the source order input resolution (fresh presses, then held
lanes), then the spawn gate, then advance-and-expire of all live
notes. -/
theorem claim_C2_phase_order :
    ∀ (g : RhythmGame) (pressed held : List Nat) (currentTime : ℤ) (fresh : Note),
      g.frame pressed held currentTime fresh =
        ((g.handleInput pressed held).spawnNote currentTime fresh).updateNotes := by
  intro g pressed held currentTime fresh
  rfl

/-- The invariant C10 asserts of every reachable ledger state: all
fields non-negative and combo bounded by max combo. -/
def ScoreManager.wellFormed (sm : ScoreManager) : Prop :=
  0 ≤ sm.score ∧ 0 ≤ sm.combo ∧ 0 ≤ sm.maxCombo ∧
  0 ≤ sm.perfectHits ∧ 0 ≤ sm.goodHits ∧ 0 ≤ sm.missHits ∧ sm.combo ≤ sm.maxCombo

instance (sm : ScoreManager) : Decidable sm.wellFormed := by
  unfold ScoreManager.wellFormed
  infer_instance

/-- Replay of a list of add_hit calls against the fresh ledger. -/
def runHits (calls : List (HitAccuracy × ℤ)) : ScoreManager :=
  calls.foldl (fun sm c => sm.addHit c.1 c.2) ScoreManager.init

theorem addHit_wellFormed (sm : ScoreManager) (a : HitAccuracy) (base : ℤ)
    (hw : sm.wellFormed) (hb : 0 ≤ base) : (sm.addHit a base).wellFormed := by
  obtain ⟨hs, hc, hm, hp, hg, hmi, hcm⟩ := hw
  have hbq : (0 : ℚ) ≤ (base : ℚ) := by exact_mod_cast hb
  have hcq : (0 : ℚ) ≤ ((sm.combo + 1 : ℤ) : ℚ) := by
    exact_mod_cast (by omega : (0:ℤ) ≤ sm.combo + 1)
  have hbonus : (0 : ℚ) ≤ min (floatMul (fl ((sm.combo + 1 : ℤ) : ℚ)) (fl (1 / 10))) 2 :=
    le_min (floatMul_nonneg (fl_nonneg hcq) (fl_nonneg (by norm_num))) (by norm_num)
  cases a
  case MISS =>
    unfold ScoreManager.wellFormed
    simp only [ScoreManager.addHit, ScoreManager.bumpHits]
    rw [if_neg (by decide : ¬ HitAccuracy.MISS ≠ HitAccuracy.MISS)]
    exact ⟨hs, le_refl 0, hm, hp, hg, by show 0 ≤ sm.missHits + 1; linarith, hm⟩
  case PERFECT =>
    have hq : (0 : ℚ) ≤ floatMul (floatMul (fl (base : ℚ)) (3 / 2))
        (floatAdd 1 (min (floatMul (fl ((sm.combo + 1 : ℤ) : ℚ)) (fl (1 / 10))) 2)) :=
      floatMul_nonneg (floatMul_nonneg (fl_nonneg hbq) (by norm_num))
        (floatAdd_nonneg (by norm_num) hbonus)
    unfold ScoreManager.wellFormed
    simp only [ScoreManager.addHit, ScoreManager.bumpHits]
    rw [if_pos (by decide : HitAccuracy.PERFECT ≠ HitAccuracy.MISS)]
    simp only [if_pos rfl, if_true]
    try dsimp only
    refine ⟨?_, by linarith, ?_, by linarith, hg, hmi, le_max_right _ _⟩
    · have h0 := pyInt_nonneg hq
      linarith
    · exact le_trans hm (le_max_left _ _)
  case GOOD =>
    have hq : (0 : ℚ) ≤ floatMul (floatMul (fl (base : ℚ)) 1)
        (floatAdd 1 (min (floatMul (fl ((sm.combo + 1 : ℤ) : ℚ)) (fl (1 / 10))) 2)) :=
      floatMul_nonneg (floatMul_nonneg (fl_nonneg hbq) (by norm_num))
        (floatAdd_nonneg (by norm_num) hbonus)
    unfold ScoreManager.wellFormed
    simp only [ScoreManager.addHit, ScoreManager.bumpHits]
    rw [if_pos (by decide : HitAccuracy.GOOD ≠ HitAccuracy.MISS)]
    rw [if_neg (by decide : ¬ HitAccuracy.GOOD = HitAccuracy.PERFECT)]
    try dsimp only
    refine ⟨?_, by linarith, ?_, hp, by linarith, hmi, le_max_right _ _⟩
    · have h0 := pyInt_nonneg hq
      linarith
    · exact le_trans hm (le_max_left _ _)

theorem foldl_addHit_wellFormed :
    ∀ (calls : List (HitAccuracy × ℤ)) (sm : ScoreManager),
      sm.wellFormed → (∀ c ∈ calls, 0 ≤ c.2) →
      (calls.foldl (fun sm c => sm.addHit c.1 c.2) sm).wellFormed := by
  intro calls
  induction calls with
  | nil => intro sm h _; exact h
  | cons c calls ih =>
    intro sm h hall
    exact ih _ (addHit_wellFormed sm c.1 c.2 h (hall c (by simp))) (fun x hx => hall x (by simp [hx]))

/-- C10: every ledger state reachable from the fresh ledger by add_hit
calls with non-negative base scores has non-negative score, combo, max
combo and counters, with combo bounded by max combo. -/
theorem claim_C10_reachable_invariant :
    ∀ calls : List (HitAccuracy × ℤ), (∀ c ∈ calls, 0 ≤ c.2) → (runHits calls).wellFormed := by
  intro calls h
  exact foldl_addHit_wellFormed calls ScoreManager.init (by decide) h

/-- Witness for C10 on a short concrete call trace. -/
theorem claim_C10_witness :
    (runHits [(HitAccuracy.PERFECT, 100), (HitAccuracy.MISS, 0), (HitAccuracy.GOOD, 200)]).wellFormed :=
  claim_C10_reachable_invariant [(HitAccuracy.PERFECT, 100), (HitAccuracy.MISS, 0), (HitAccuracy.GOOD, 200)] (by decide)

end RhythmModel
